import Mathlib

/-!
Verification of the PyTak_2025 scripts (`send.py`, `tak_test.py`): a shallow
embedding of the CoT event generators, the queue-worker loops and the codec
they rely on, with the spec's claims settled as theorems.

Bytes produced by the scripts are ASCII XML, modelled as `String`
(`List Char`); raw network bytes handled by the receiver are modelled as
`List Nat` (each entry one byte).
-/

/-! ## Decimal rendering of naturals (timestamps)

Modelled from the spec: the codec's `now()` returns the current time in a
canonical fixed-precision UTC format and `staleAt(offsetSeconds)` returns
`now() + offsetSeconds` (spec section 4.1, standing in for `pytak.cot_time`,
which lives outside this repository).  A timestamp is modelled as the number
of seconds since the epoch, rendered in decimal. -/

def digitChar : Nat → Char
  | 0 => '0' | 1 => '1' | 2 => '2' | 3 => '3' | 4 => '4'
  | 5 => '5' | 6 => '6' | 7 => '7' | 8 => '8' | 9 => '9'
  | _ => '*'

def charDigitVal (c : Char) : Nat := c.toNat - 48

/-- Decimal digits of `n`, least significant first; `fuel` bounds recursion. -/
def toDigitsRev : Nat → Nat → List Nat
  | 0, _ => []
  | fuel + 1, n => if n = 0 then [] else n % 10 :: toDigitsRev fuel (n / 10)

def ofDigitsRev : List Nat → Nat
  | [] => 0
  | d :: ds => d + 10 * ofDigitsRev ds

def natToStr (n : Nat) : String :=
  if n = 0 then "0" else ⟨((toDigitsRev n n).map digitChar).reverse⟩

def strToNat (s : String) : Option Nat :=
  if s.data ≠ [] ∧ s.data.all Char.isDigit then
    some (ofDigitsRev ((s.data.map charDigitVal).reverse))
  else none

/-! ## XML element model (mirrors `xml.etree.ElementTree` usage)

The scripts build a root element with string attributes and at most one
level of children (the `point` sub-element), and serialize it with
`ET.tostring`.  Attributes keep insertion order, as CPython's
ElementTree does. -/

structure XmlLeaf where
  tag : String
  attrib : List (String × String)
deriving DecidableEq

structure XmlElem where
  tag : String
  attrib : List (String × String)
  children : List XmlLeaf
deriving DecidableEq

def charsJoin : List (List Char) → List Char
  | [] => []
  | l :: ls => l ++ charsJoin ls

def attrChars (kv : String × String) : List Char :=
  ' ' :: kv.1.data ++ '=' :: '"' :: kv.2.data ++ ['"']

def attrsChars (attrs : List (String × String)) : List Char :=
  charsJoin (attrs.map attrChars)

def leafChars (l : XmlLeaf) : List Char :=
  '<' :: l.tag.data ++ attrsChars l.attrib ++ [' ', '/', '>']

/-- Serialization of a root element, as `ET.tostring` renders it:
self-closing `<tag a="v" />` when there are no children, otherwise
`<tag a="v">` children `</tag>`. -/
def elemChars (e : XmlElem) : List Char :=
  match e.children with
  | [] => '<' :: e.tag.data ++ attrsChars e.attrib ++ [' ', '/', '>']
  | cs => '<' :: e.tag.data ++ attrsChars e.attrib ++ '>' ::
      (charsJoin (cs.map leafChars) ++ '<' :: '/' :: e.tag.data ++ ['>'])

def tostring (e : XmlElem) : String := ⟨elemChars e⟩

/-! ## XML parser

Modelled from the spec: the codec's `decode(bytes) -> CotEvent` fails with
`ParseError` if the input is not well-formed, or with `ValidationError` if
`stale` precedes `start` (spec section 4.1; the repository itself never
parses, so the decoder is the spec's reconstruction of `ET.fromstring`
plus the stale/start validation). -/

def isNameChar (c : Char) : Bool :=
  c.isAlphanum || c == '-' || c == '_' || c == '.'

/-- Longest prefix of characters satisfying `p`, paired with the rest. -/
def spanP (p : Char → Bool) : List Char → List Char × List Char
  | [] => ([], [])
  | c :: cs =>
    if p c then
      let r := spanP p cs
      (c :: r.1, r.2)
    else ([], c :: cs)

def startsWith : List Char → List Char → Bool
  | _, [] => true
  | [], _ :: _ => false
  | c :: cs, d :: ds => c == d && startsWith cs ds

/-- Parse a list of ` name="value"` attribute groups, stopping (and leaving
the input in place) at `>` or at ` />`. -/
def parseAttrs : Nat → List Char → Option (List (String × String) × List Char)
  | 0, _ => none
  | fuel + 1, input =>
    if startsWith input ['>'] || startsWith input [' ', '/', '>'] then
      some ([], input)
    else
      match input with
      | c :: rest =>
        if c == ' ' then
          let p := spanP isNameChar rest
          if p.1 = [] then none
          else
            match p.2 with
            | c1 :: c2 :: rest2 =>
              if c1 == '=' && c2 == '"' then
                let q := spanP (fun x => !(x == '"')) rest2
                match q.2 with
                | c3 :: rest4 =>
                  if c3 == '"' then
                    match parseAttrs fuel rest4 with
                    | some (attrs, rem) => some ((⟨p.1⟩, ⟨q.1⟩) :: attrs, rem)
                    | none => none
                  else none
                | _ => none
              else none
            | _ => none
        else none
      | [] => none

/-- Parse one self-closing child element `<tag a="v" />`. -/
def parseLeaf (fuel : Nat) (input : List Char) : Option (XmlLeaf × List Char) :=
  match input with
  | c :: rest =>
    if c == '<' then
      let p := spanP isNameChar rest
      if p.1 = [] then none
      else
        match parseAttrs fuel p.2 with
        | some (attrs, c1 :: c2 :: c3 :: rest3) =>
          if c1 == ' ' && c2 == '/' && c3 == '>' then some (⟨⟨p.1⟩, attrs⟩, rest3)
          else none
        | _ => none
    else none
  | [] => none

/-- Parse zero or more child elements, stopping at a closing tag `</`. -/
def parseLeaves : Nat → List Char → Option (List XmlLeaf × List Char)
  | 0, _ => none
  | fuel + 1, input =>
    if startsWith input ['<', '/'] then some ([], input)
    else if startsWith input ['<'] then
      match parseLeaf fuel input with
      | some (l, rest) =>
        match parseLeaves fuel rest with
        | some (ls, rest') => some (l :: ls, rest')
        | none => none
      | none => none
    else none

/-- Parse a root element: either self-closing, or an open tag followed by
children and the matching closing tag. -/
def parseElem (fuel : Nat) (input : List Char) : Option (XmlElem × List Char) :=
  match input with
  | c :: rest =>
    if c == '<' then
      let p := spanP isNameChar rest
      if p.1 = [] then none
      else
        match parseAttrs fuel p.2 with
        | some (attrs, c1 :: rest1) =>
          if c1 == '>' then
            match parseLeaves fuel rest1 with
            | some (ls, c4 :: c5 :: rest5) =>
              if c4 == '<' && c5 == '/' then
                let q := spanP isNameChar rest5
                if q.1 = p.1 then
                  match q.2 with
                  | c6 :: rest7 => if c6 == '>' then some (⟨⟨p.1⟩, attrs, ls⟩, rest7) else none
                  | _ => none
                else none
              else none
            | _ => none
          else
            match rest1 with
            | c2 :: c3 :: rest3 =>
              if c1 == ' ' && c2 == '/' && c3 == '>' then some (⟨⟨p.1⟩, attrs, []⟩, rest3)
              else none
            | _ => none
        | _ => none
    else none
  | [] => none

/-- Parse a whole document (the inverse of `tostring` on well-formed input). -/
def fromstring (s : String) : Option XmlElem :=
  match parseElem (s.data.length + 1) s.data with
  | some (e, []) => some e
  | _ => none

def getAttr (e : XmlElem) (k : String) : Option String :=
  (e.attrib.find? (fun kv => kv.1 == k)).map (fun kv => kv.2)

def getLeafAttr (l : XmlLeaf) (k : String) : Option String :=
  (l.attrib.find? (fun kv => kv.1 == k)).map (fun kv => kv.2)

def timeAttr (e : XmlElem) (k : String) : Option Nat :=
  (getAttr e k).bind strToNat

inductive CodecError where
  | parseError
  | validationError
deriving DecidableEq

/-- The spec codec's `decode`: parse, then reject an event whose `stale`
timestamp precedes its `start` timestamp. -/
def decode (s : String) : Except CodecError XmlElem :=
  match fromstring s with
  | none => .error .parseError
  | some e =>
    match timeAttr e "start", timeAttr e "stale" with
    | some st, some sl => if sl < st then .error .validationError else .ok e
    | _, _ => .ok e

/-! ## UTF-8 decoding of raw bytes

Model of CPython's strict `bytes.decode()` (the default UTF-8 codec used by
`MyReceiver.handle_data` in `tak_test.py`): rejects truncated sequences,
stray continuation bytes, overlong encodings, surrogates and out-of-range
code points. -/

def utf8Cont (b : Nat) : Bool := 128 ≤ b && b < 192

def utf8Decode : List Nat → Option (List Char)
  | [] => some []
  | b :: rest =>
    if b < 128 then
      match utf8Decode rest with
      | some cs => some (Char.ofNat b :: cs)
      | none => none
    else if b < 194 then none
    else if b < 224 then
      match rest with
      | b1 :: rest1 =>
        if utf8Cont b1 then
          match utf8Decode rest1 with
          | some cs => some (Char.ofNat ((b - 192) * 64 + (b1 - 128)) :: cs)
          | none => none
        else none
      | [] => none
    else if b < 240 then
      match rest with
      | b1 :: b2 :: rest2 =>
        if utf8Cont b1 && utf8Cont b2 then
          let cp := (b - 224) * 4096 + (b1 - 128) * 64 + (b2 - 128)
          if 2048 ≤ cp && (cp < 55296 || 57344 ≤ cp) then
            match utf8Decode rest2 with
            | some cs => some (Char.ofNat cp :: cs)
            | none => none
          else none
        else none
      | _ => none
    else if b < 245 then
      match rest with
      | b1 :: b2 :: b3 :: rest3 =>
        if utf8Cont b1 && utf8Cont b2 && utf8Cont b3 then
          let cp := (b - 240) * 262144 + (b1 - 128) * 4096 + (b2 - 128) * 64 + (b3 - 128)
          if 65536 ≤ cp && cp ≤ 1114111 then
            match utf8Decode rest3 with
            | some cs => some (Char.ofNat cp :: cs)
            | none => none
          else none
        else none
      | _ => none
    else none

/-! ## The scripts' event generators

`pytak.cot_time()` is modelled by `cot_time offset now` where `now` is the
clock reading at the moment of the call (the generator functions take the
clock reading as an explicit argument; they are pure in everything else). -/

def cot_time (offset : Nat) (now : Nat) : String := natToStr (now + offset)

/-- Element built by `tak_pong` in `send.py`: an `event` root with the seven
attributes set in source order and no children. -/
def takPongElem (now : Nat) : XmlElem :=
  ⟨"event",
    [("version", "2.0"), ("type", "t-x-d-d"), ("uid", "takPong"), ("how", "m-g"),
     ("time", cot_time 0 now), ("start", cot_time 0 now), ("stale", cot_time 3600 now)],
    []⟩

/-- `tak_pong()` in `send.py`: builds the element and returns `ET.tostring`. -/
def tak_pong (now : Nat) : String := tostring (takPongElem now)

/-- The `point` sub-element attributes of `gen_cot` in `tak_test.py`. -/
def genCotPoint : XmlLeaf :=
  ⟨"point",
    [("lat", "40.781789"), ("lon", "-73.968698"), ("hae", "0"), ("ce", "10"), ("le", "10")]⟩

/-- Element built by `gen_cot` in `tak_test.py`: an `event` root with the
seven attributes set in source order and one `point` child. -/
def genCotElem (now : Nat) : XmlElem :=
  ⟨"event",
    [("version", "2.0"), ("type", "a-h-A-M-A"), ("uid", "name_your_marker"), ("how", "m-g"),
     ("time", cot_time 0 now), ("start", cot_time 0 now), ("stale", cot_time 60 now)],
    [genCotPoint]⟩

/-- `gen_cot()` in `tak_test.py`: builds the element and returns `ET.tostring`. -/
def gen_cot (now : Nat) : String := tostring (genCotElem now)

/-! ## Producer worker model

A `pytak.QueueWorker` instance as constructed in the scripts: it holds a
reference to the TX queue and the configuration section.  The observable
state a producer's loop body touches is the queue it writes and the clock
(`asyncio.sleep` advances it). -/

structure QueueWorkerInst where
  queue : List String
  config : List (String × String)
deriving DecidableEq

structure WState where
  txq : List String
  now : Nat
deriving DecidableEq

/-- `self.put_queue(data)`: appends the item to the transmission queue. -/
def put_queue (st : WState) (d : String) : WState := ⟨st.txq ++ [d], st.now⟩

/-- `MySerializer.handle_data` in `send.py`: `event = data; put_queue(event)`. -/
def mySerializerHandleData (st : WState) (data : String) : WState :=
  put_queue st data

/-- `MySender.handle_data` in `tak_test.py`: `put_queue(data)`. -/
def mySenderHandleData (st : WState) (data : String) : WState :=
  put_queue st data

/-- `await asyncio.sleep(secs)`: suspends the worker, advancing its clock. -/
def sleepW (st : WState) (secs : Nat) : WState := ⟨st.txq, st.now + secs⟩

/-- One iteration of `MySerializer.run` in `send.py`: generate `tak_pong()`,
pass it to `handle_data`, then `asyncio.sleep(20)`.  The instance `w` is in
scope but the body reads nothing from it. -/
def mySerializerBody (_w : QueueWorkerInst) (st : WState) : WState :=
  sleepW (mySerializerHandleData st (tak_pong st.now)) 20

/-- One iteration of `MySender.run` in `tak_test.py`: generate `gen_cot()`,
log it, pass it to `handle_data`, then `asyncio.sleep(5)`.  The instance `w`
is in scope but the body reads nothing from it. -/
def mySenderBody (_w : QueueWorkerInst) (st : WState) : WState :=
  sleepW (mySenderHandleData st (gen_cot st.now)) 5

/-- Interval actually observed between the start of an iteration and the
start of the next, for a given instance. -/
def mySerializerObservedInterval (w : QueueWorkerInst) (st : WState) : Nat :=
  (mySerializerBody w st).now - st.now

def mySenderObservedInterval (w : QueueWorkerInst) (st : WState) : Nat :=
  (mySenderBody w st).now - st.now

/-- Run a worker's loop body repeatedly while the clock is before `dl`
(a `while True` loop observed for a finite wall-clock window). -/
def runUntil (body : WState → WState) : Nat → Nat → WState → WState
  | 0, _, st => st
  | fuel + 1, dl, st => if st.now < dl then runUntil body fuel dl (body st) else st

/-- `MySender` run for `dur` seconds starting at clock `t0`, from an empty
transmission queue. -/
def mySenderRunFor (w : QueueWorkerInst) (t0 dur : Nat) : WState :=
  runUntil (mySenderBody w) dur (t0 + dur) ⟨[], t0⟩

/-! ## Consumer worker model (`MyReceiver` in `tak_test.py`)

`handle_data` logs `data.decode()`; a `UnicodeDecodeError` from `.decode()`
is not caught anywhere in the class, so it is modelled as `Except.error`. -/

def receivedMsg (s : List Char) : String :=
  ⟨"Received:\n".data ++ s ++ ['\n']⟩

/-- `MyReceiver.handle_data`: log the decoded bytes; raises (returns
`Except.error`) when the bytes are not valid UTF-8. -/
def myReceiverHandleData (log : List String) (data : List Nat) :
    Except String (List String) :=
  match utf8Decode data with
  | some s => .ok (log ++ [receivedMsg s])
  | none => .error "UnicodeDecodeError"

/-- `MyReceiver.run` observed on a finite queue prefix: dequeue, handle,
repeat; an uncaught exception from `handle_data` terminates the loop. -/
def myReceiverRun : List (List Nat) → List String → Except String (List String)
  | [], log => .ok log
  | d :: rest, log =>
    match myReceiverHandleData log d with
    | .ok log' => myReceiverRun rest log'
    | .error e => .error e

/-- One scheduling step of `MyReceiver.run`: on an empty queue the
`await self.queue.get()` pends and the worker makes no transition; otherwise
the first item is dequeued and only then handled. -/
def myReceiverStep (rxq : List (List Nat)) (log : List String) :
    Option (List (List Nat) × Except String (List String)) :=
  match rxq with
  | [] => none
  | d :: rest => some (rest, myReceiverHandleData log d)

/-! ## Two-worker system (sender and receiver sharing one process)

Modelled from the spec: the asyncio scheduler of the scripts is a
single-threaded cooperative scheduler; a worker pending on `queue.get()`
yields control, and any other runnable worker can be stepped independently
(spec sections 4.2 and 5). -/

structure SysState where
  txq : List String
  rxq : List (List Nat)
  rlog : List String
  now : Nat
deriving DecidableEq

/-- Scheduling `MySender` for one iteration, regardless of the receiver. -/
def senderSysStep (st : SysState) : SysState :=
  ⟨st.txq ++ [gen_cot st.now], st.rxq, st.rlog, st.now + 5⟩

/-- Scheduling `MyReceiver` once: blocked (state unchanged) on an empty RX
queue, otherwise dequeue and handle. -/
def receiverSysStep (st : SysState) : SysState :=
  match myReceiverStep st.rxq st.rlog with
  | none => st
  | some (q', .ok log') => ⟨st.txq, q', log', st.now⟩
  | some (q', .error _) => ⟨st.txq, q', st.rlog, st.now⟩

/-! ## Well-formedness of elements (serializer-parser round-trip domain) -/

def nameOk (s : String) : Prop := s.data ≠ [] ∧ ∀ c ∈ s.data, isNameChar c = true

def valOk (s : String) : Prop := ∀ c ∈ s.data, (c == '"') = false

def attrsOk (attrs : List (String × String)) : Prop :=
  ∀ kv ∈ attrs, nameOk kv.1 ∧ valOk kv.2

def leafOk (l : XmlLeaf) : Prop := nameOk l.tag ∧ attrsOk l.attrib

def elemOk (e : XmlElem) : Prop :=
  nameOk e.tag ∧ attrsOk e.attrib ∧ ∀ l ∈ e.children, leafOk l

instance decidableNameOk (s : String) : Decidable (nameOk s) := by
  unfold nameOk
  infer_instance

instance decidableValOk (s : String) : Decidable (valOk s) := by
  unfold valOk
  infer_instance

instance decidableAttrsOk (attrs : List (String × String)) : Decidable (attrsOk attrs) := by
  unfold attrsOk
  infer_instance

instance decidableLeafOk (l : XmlLeaf) : Decidable (leafOk l) := by
  unfold leafOk
  infer_instance


/-- Erase the three regenerated timestamp attributes, keeping everything else. -/
def stripTimes (e : XmlElem) : XmlElem :=
  ⟨e.tag,
    e.attrib.filter (fun kv => !(kv.1 == "time" || kv.1 == "start" || kv.1 == "stale")),
    e.children⟩

/-- An event whose stale timestamp precedes its start timestamp; the
constructor and serializer accept it (validation happens only on decode). -/
def badStaleElem : XmlElem := ⟨"event", [("start", "100"), ("stale", "5")], []⟩

/-! ## Auxiliary lemmas: decimal rendering round-trips -/

theorem toDigitsRev_zero (n : Nat) : toDigitsRev 0 n = [] := rfl

theorem toDigitsRev_succ (f n : Nat) :
    toDigitsRev (f + 1) n = if n = 0 then [] else n % 10 :: toDigitsRev f (n / 10) := rfl

theorem toDigitsRev_lt_ten : ∀ (f n d : Nat), d ∈ toDigitsRev f n → d < 10 := by
  intro f
  induction f with
  | zero => intro n d h; rw [toDigitsRev_zero] at h; exact absurd h (List.not_mem_nil d)
  | succ f ih =>
    intro n d h
    rw [toDigitsRev_succ] at h
    by_cases hn : n = 0
    · rw [if_pos hn] at h; exact absurd h (List.not_mem_nil d)
    · rw [if_neg hn, List.mem_cons] at h
      rcases h with h | h
      · subst h; exact Nat.mod_lt _ (by omega)
      · exact ih _ _ h

theorem ofDigitsRev_toDigitsRev : ∀ (f n : Nat), n ≤ f →
    ofDigitsRev (toDigitsRev f n) = n := by
  intro f
  induction f with
  | zero => intro n h; interval_cases n; rfl
  | succ f ih =>
    intro n h
    rw [toDigitsRev_succ]
    by_cases hn : n = 0
    · rw [if_pos hn, hn]; rfl
    · have hd : n / 10 ≤ f := by
        have := Nat.div_lt_self (Nat.pos_of_ne_zero hn) (by omega : 1 < 10)
        omega
      rw [if_neg hn]
      show n % 10 + 10 * ofDigitsRev (toDigitsRev f (n / 10)) = n
      rw [ih _ hd]
      omega

theorem charDigitVal_digitChar {d : Nat} (h : d < 10) :
    charDigitVal (digitChar d) = d := by
  interval_cases d <;> decide

theorem digitChar_isDigit {d : Nat} (h : d < 10) :
    (digitChar d).isDigit = true := by
  interval_cases d <;> decide

theorem natToStr_data (n : Nat) (hn : n ≠ 0) :
    (natToStr n).data = ((toDigitsRev n n).map digitChar).reverse := by
  rw [natToStr, if_neg hn]

theorem natToStr_digits (n : Nat) : ∀ c ∈ (natToStr n).data, c.isDigit = true := by
  intro c hc
  by_cases hn : n = 0
  · subst hn
    have h0 : (natToStr 0).data = ['0'] := rfl
    rw [h0, List.mem_singleton] at hc
    subst hc; decide
  · rw [natToStr_data n hn, List.mem_reverse, List.mem_map] at hc
    obtain ⟨d, hd, rfl⟩ := hc
    exact digitChar_isDigit (toDigitsRev_lt_ten _ _ _ hd)

theorem toDigitsRev_ne_nil (n : Nat) (hn : n ≠ 0) : toDigitsRev n n ≠ [] := by
  obtain ⟨f, rfl⟩ : ∃ f, n = f + 1 := ⟨n - 1, by omega⟩
  rw [toDigitsRev_succ, if_neg hn]
  exact List.cons_ne_nil _ _

theorem strToNat_natToStr (n : Nat) : strToNat (natToStr n) = some n := by
  by_cases hn : n = 0
  · subst hn; decide
  · have hne : (natToStr n).data ≠ [] := by
      rw [natToStr_data n hn]
      simp [toDigitsRev_ne_nil n hn]
    have hall : (natToStr n).data.all Char.isDigit = true := by
      rw [List.all_eq_true]; exact natToStr_digits n
    rw [strToNat, if_pos ⟨hne, hall⟩]
    congr 1
    rw [natToStr_data n hn, List.map_reverse, List.reverse_reverse, List.map_map]
    have hmap : (toDigitsRev n n).map (charDigitVal ∘ digitChar) = toDigitsRev n n := by
      apply List.map_congr_left ?_ |>.trans (List.map_id _)
      intro d hd
      exact charDigitVal_digitChar (toDigitsRev_lt_ten _ _ _ hd)
    rw [hmap, ofDigitsRev_toDigitsRev n n (Nat.le_refl n)]

theorem nameChar_beq_false {c d : Char} (h : isNameChar c = true)
    (hd : isNameChar d = false) : (c == d) = false := by
  cases hcd : c == d
  · rfl
  · rw [beq_iff_eq] at hcd
    subst hcd
    rw [h] at hd
    exact absurd hd (by simp)

theorem spanP_append (p : Char → Bool) (l : List Char) (hl : ∀ c ∈ l, p c = true)
    (c : Char) (hc : p c = false) (r : List Char) :
    spanP p (l ++ c :: r) = (l, c :: r) := by
  induction l with
  | nil => simp [spanP, hc]
  | cons a as ih =>
    have ha : p a = true := hl a (List.mem_cons_self a as)
    have ih' := ih (fun x hx => hl x (List.mem_cons_of_mem a hx))
    simp [spanP, ha, ih']

theorem parseAttrs_append : ∀ (attrs : List (String × String)), attrsOk attrs →
    ∀ (fuel : Nat) (rest : List Char),
      (attrsChars attrs).length + rest.length < fuel →
      (startsWith rest ['>'] || startsWith rest [' ', '/', '>']) = true →
      parseAttrs fuel (attrsChars attrs ++ rest) = some (attrs, rest) := by
  intro attrs
  induction attrs with
  | nil =>
    intro _ fuel rest hf ht
    obtain ⟨f, rfl⟩ : ∃ f, fuel = f + 1 := ⟨fuel - 1, by omega⟩
    show parseAttrs (f + 1) (attrsChars [] ++ rest) = some ([], rest)
    have h0 : attrsChars [] = ([] : List Char) := rfl
    rw [h0, List.nil_append, parseAttrs.eq_def]
    simp only []
    rw [if_pos ht]
  | cons kv tl ih =>
    intro hwf fuel rest hf ht
    obtain ⟨k, v⟩ := kv
    obtain ⟨f, rfl⟩ : ∃ f, fuel = f + 1 := ⟨fuel - 1, by omega⟩
    obtain ⟨hk, hv⟩ := hwf (k, v) (List.mem_cons_self _ _)
    obtain ⟨hkne, hkchars⟩ := hk
    obtain ⟨c0, k', hk0⟩ : ∃ c0 k', k.data = c0 :: k' := by
      cases hkd : k.data with
      | nil => exact absurd hkd hkne
      | cons a b => exact ⟨a, b, rfl⟩
    have hinput : attrsChars ((k, v) :: tl) ++ rest
        = ' ' :: (k.data ++ ('=' :: '"' :: (v.data ++ ('"' :: (attrsChars tl ++ rest))))) := by
      simp [attrsChars, charsJoin, attrChars, List.append_assoc]
    rw [hinput, parseAttrs]
    have hc0 : isNameChar c0 = true := hkchars c0 (hk0 ▸ List.mem_cons_self _ _)
    have hcond : (startsWith
        (' ' :: (k.data ++ ('=' :: '"' :: (v.data ++ ('"' :: (attrsChars tl ++ rest)))))) ['>'] ||
        startsWith
        (' ' :: (k.data ++ ('=' :: '"' :: (v.data ++ ('"' :: (attrsChars tl ++ rest)))))) [' ', '/', '>']) = false := by
      rw [hk0]
      simp [startsWith, nameChar_beq_false hc0 (by decide : isNameChar '/' = false)]
    rw [if_neg (by rw [hcond]; exact Bool.false_ne_true)]
    have hspan : spanP isNameChar (k.data ++ ('=' :: '"' :: (v.data ++ ('"' :: (attrsChars tl ++ rest)))))
        = (k.data, '=' :: '"' :: (v.data ++ ('"' :: (attrsChars tl ++ rest)))) := by
      exact spanP_append _ _ hkchars _ (by decide) _
    simp only [beq_self_eq_true, if_true, hspan]
    rw [if_neg (by simpa using hkne)]
    have hspan2 : spanP (fun x => !(x == '"')) (v.data ++ ('"' :: (attrsChars tl ++ rest)))
        = (v.data, '"' :: (attrsChars tl ++ rest)) := by
      apply spanP_append
      · intro c hcv; rw [hv c hcv]; rfl
      · decide
    simp only [hspan2]
    have hrec : parseAttrs f (attrsChars tl ++ rest) = some (tl, rest) := by
      apply ih (fun x hx => hwf x (List.mem_cons_of_mem _ hx)) f rest ?_ ht
      have hlen : (attrsChars ((k, v) :: tl)).length
          = (attrChars (k, v)).length + (attrsChars tl).length := by
        simp [attrsChars, charsJoin]
      have hlen2 : (attrChars (k, v)).length = 4 + k.data.length + v.data.length := by
        simp [attrChars]; omega
      omega
    simp [hrec]

theorem spanP_name_before_attrs (tag : List Char) (htag : ∀ c ∈ tag, isNameChar c = true)
    (attrs : List (String × String)) (c : Char) (hc : isNameChar c = false) (y : List Char) :
    spanP isNameChar (tag ++ (attrsChars attrs ++ c :: y))
      = (tag, attrsChars attrs ++ c :: y) := by
  cases attrs with
  | nil =>
    have h0 : attrsChars [] = ([] : List Char) := rfl
    rw [h0, List.nil_append]
    exact spanP_append _ _ htag _ hc _
  | cons kv tl =>
    have h1 : attrsChars (kv :: tl) ++ c :: y
        = ' ' :: (kv.1.data ++ ('=' :: '"' :: (kv.2.data ++ ('"' :: (attrsChars tl ++ c :: y))))) := by
      simp [attrsChars, charsJoin, attrChars, List.append_assoc]
    rw [h1]
    exact spanP_append _ _ htag _ (by decide) _

theorem parseLeaf_append (l : XmlLeaf) (h : leafOk l) (fuel : Nat) (rest : List Char)
    (hf : (leafChars l).length + rest.length ≤ fuel) :
    parseLeaf fuel (leafChars l ++ rest) = some (l, rest) := by
  obtain ⟨tg, ats⟩ := l
  obtain ⟨⟨htagne, htagchars⟩, hattrs⟩ := h
  have hinput : leafChars ⟨tg, ats⟩ ++ rest
      = '<' :: (tg.data ++ (attrsChars ats ++ ' ' :: ('/' :: '>' :: rest))) := by
    simp [leafChars, List.append_assoc]
  rw [hinput, parseLeaf]
  simp only [beq_self_eq_true, if_true]
  rw [spanP_name_before_attrs tg.data htagchars ats ' ' (by decide) _]
  simp only []
  rw [if_neg (by simpa using htagne)]
  have hlen : (leafChars (⟨tg, ats⟩ : XmlLeaf)).length
      = 4 + tg.data.length + (attrsChars ats).length := by
    simp [leafChars]; omega
  have htagpos : 0 < tg.data.length := List.length_pos.mpr htagne
  have hpa : parseAttrs fuel (attrsChars ats ++ ' ' :: ('/' :: '>' :: rest))
      = some (ats, ' ' :: ('/' :: '>' :: rest)) := by
    apply parseAttrs_append ats hattrs fuel _ ?_ (by simp [startsWith])
    simp only [List.length_cons]
    omega
  rw [hpa]
  simp

theorem parseLeaves_append : ∀ (ls : List XmlLeaf), (∀ l ∈ ls, leafOk l) →
    ∀ (fuel : Nat) (rest : List Char),
      (charsJoin (ls.map leafChars)).length + rest.length < fuel →
      startsWith rest ['<', '/'] = true →
      parseLeaves fuel (charsJoin (ls.map leafChars) ++ rest) = some (ls, rest) := by
  intro ls
  induction ls with
  | nil =>
    intro _ fuel rest hf ht
    obtain ⟨f, rfl⟩ : ∃ f, fuel = f + 1 := ⟨fuel - 1, by omega⟩
    show parseLeaves (f + 1) (charsJoin [] ++ rest) = some ([], rest)
    rw [show charsJoin [] = ([] : List Char) from rfl, List.nil_append,
      parseLeaves.eq_def]
    simp only []
    rw [if_pos ht]
  | cons l tl ih =>
    intro hwf fuel rest hf ht
    obtain ⟨f, rfl⟩ : ∃ f, fuel = f + 1 := ⟨fuel - 1, by omega⟩
    obtain ⟨⟨htagne, htagchars⟩, hattrs⟩ := hwf l (List.mem_cons_self _ _)
    obtain ⟨c0, k', hk0⟩ : ∃ c0 k', l.tag.data = c0 :: k' := by
      cases hkd : l.tag.data with
      | nil => exact absurd hkd htagne
      | cons a b => exact ⟨a, b, rfl⟩
    have hc0 : isNameChar c0 = true := htagchars c0 (hk0 ▸ List.mem_cons_self _ _)
    have hinput : charsJoin ((l :: tl).map leafChars) ++ rest
        = leafChars l ++ (charsJoin (tl.map leafChars) ++ rest) := by
      simp [charsJoin, List.append_assoc]
    have hhead : leafChars l ++ (charsJoin (tl.map leafChars) ++ rest)
        = '<' :: (c0 :: (k' ++ (attrsChars l.attrib ++ [' ', '/', '>'])
            ++ (charsJoin (tl.map leafChars) ++ rest))) := by
      simp [leafChars, hk0, List.append_assoc]
    rw [hinput, parseLeaves.eq_def]
    simp only []
    have hcond1 : startsWith (leafChars l ++ (charsJoin (tl.map leafChars) ++ rest))
        ['<', '/'] = false := by
      rw [hhead]
      simp [startsWith, nameChar_beq_false hc0 (by decide : isNameChar '/' = false)]
    have hcond2 : startsWith (leafChars l ++ (charsJoin (tl.map leafChars) ++ rest))
        ['<'] = true := by
      rw [hhead]; simp [startsWith]
    rw [if_neg (by rw [hcond1]; exact Bool.false_ne_true), if_pos hcond2]
    have hlen : (leafChars l).length = 4 + l.tag.data.length + (attrsChars l.attrib).length := by
      simp [leafChars]; omega
    have hjoin : (charsJoin ((l :: tl).map leafChars)).length
        = (leafChars l).length + (charsJoin (tl.map leafChars)).length := by
      simp [charsJoin]
    have hpl : parseLeaf f (leafChars l ++ (charsJoin (tl.map leafChars) ++ rest))
        = some (l, charsJoin (tl.map leafChars) ++ rest) := by
      apply parseLeaf_append l ⟨⟨htagne, htagchars⟩, hattrs⟩ f _ ?_
      simp only [List.length_append]
      omega
    have hrec : parseLeaves f (charsJoin (tl.map leafChars) ++ rest) = some (tl, rest) := by
      apply ih (fun x hx => hwf x (List.mem_cons_of_mem _ hx)) f rest ?_ ht
      have : 0 < l.tag.data.length := List.length_pos.mpr htagne
      omega
    rw [hpl]
    simp [hrec]

theorem parseElem_append (e : XmlElem) (h : elemOk e) (fuel : Nat) (rest : List Char)
    (hf : (elemChars e).length + rest.length ≤ fuel) :
    parseElem fuel (elemChars e ++ rest) = some (e, rest) := by
  obtain ⟨tg, ats, ch⟩ := e
  obtain ⟨⟨htagne, htagchars⟩, hattrs, hch⟩ := h
  have htagpos : 0 < tg.data.length := List.length_pos.mpr htagne
  cases ch with
  | nil =>
    have hinput : elemChars ⟨tg, ats, []⟩ ++ rest
        = '<' :: (tg.data ++ (attrsChars ats ++ ' ' :: ('/' :: '>' :: rest))) := by
      simp [elemChars, List.append_assoc]
    rw [hinput, parseElem]
    simp only [beq_self_eq_true, if_true]
    rw [spanP_name_before_attrs tg.data htagchars ats ' ' (by decide) _]
    simp only []
    rw [if_neg (by simpa using htagne)]
    have hlen : (elemChars (⟨tg, ats, []⟩ : XmlElem)).length
        = 4 + tg.data.length + (attrsChars ats).length := by
      simp [elemChars]; omega
    have hpa : parseAttrs fuel (attrsChars ats ++ ' ' :: ('/' :: '>' :: rest))
        = some (ats, ' ' :: ('/' :: '>' :: rest)) := by
      apply parseAttrs_append ats hattrs fuel _ ?_ (by simp [startsWith])
      simp only [List.length_cons]
      omega
    rw [hpa]
    simp
  | cons c0 cs =>
    have hinput : elemChars ⟨tg, ats, c0 :: cs⟩ ++ rest
        = '<' :: (tg.data ++ (attrsChars ats ++ '>' ::
            (charsJoin ((c0 :: cs).map leafChars)
              ++ '<' :: ('/' :: (tg.data ++ '>' :: rest))))) := by
      simp [elemChars, charsJoin, List.append_assoc]
    rw [hinput, parseElem]
    simp only [beq_self_eq_true, if_true]
    rw [spanP_name_before_attrs tg.data htagchars ats '>' (by decide) _]
    simp only []
    rw [if_neg (by simpa using htagne)]
    have hlen : (elemChars (⟨tg, ats, c0 :: cs⟩ : XmlElem)).length
        = 5 + 2 * tg.data.length + (attrsChars ats).length
          + (charsJoin ((c0 :: cs).map leafChars)).length := by
      simp [elemChars, charsJoin]; omega
    have hpa : parseAttrs fuel (attrsChars ats ++ '>' ::
        (charsJoin ((c0 :: cs).map leafChars) ++ '<' :: ('/' :: (tg.data ++ '>' :: rest))))
        = some (ats, '>' :: (charsJoin ((c0 :: cs).map leafChars)
            ++ '<' :: ('/' :: (tg.data ++ '>' :: rest)))) := by
      apply parseAttrs_append ats hattrs fuel _ ?_ (by simp [startsWith])
      simp only [List.length_cons, List.length_append]
      omega
    rw [hpa]
    simp only [beq_self_eq_true, if_true]
    have hpl : parseLeaves fuel (charsJoin ((c0 :: cs).map leafChars)
        ++ '<' :: ('/' :: (tg.data ++ '>' :: rest)))
        = some (c0 :: cs, '<' :: ('/' :: (tg.data ++ '>' :: rest))) := by
      apply parseLeaves_append (c0 :: cs) hch fuel _ ?_ (by simp [startsWith])
      simp only [List.length_cons, List.length_append]
      omega
    rw [hpl]
    simp only [beq_self_eq_true, Bool.and_self, if_true]
    rw [spanP_append isNameChar tg.data htagchars '>' (by decide) rest]
    simp

theorem fromstring_tostring (e : XmlElem) (h : elemOk e) :
    fromstring (tostring e) = some e := by
  have hd : (tostring e).data = elemChars e := rfl
  rw [fromstring, hd]
  have hpe : parseElem ((elemChars e).length + 1) (elemChars e ++ [])
      = some (e, []) := parseElem_append e h _ [] (by simp)
  rw [List.append_nil] at hpe
  rw [hpe]

/-! ## The generator elements are in the round-trip domain -/

theorem digit_ne_quote {c : Char} (h : c.isDigit = true) : (c == '"') = false := by
  cases hc : c == '"'
  · rfl
  · rw [beq_iff_eq] at hc
    subst hc
    exact absurd h (by decide)

theorem natToStr_valOk (n : Nat) : valOk (natToStr n) :=
  fun c hc => digit_ne_quote (natToStr_digits n c hc)

theorem cot_time_valOk (offset now : Nat) : valOk (cot_time offset now) :=
  natToStr_valOk (now + offset)

theorem takPong_elemOk (t : Nat) : elemOk (takPongElem t) := by
  refine ⟨(by decide : nameOk "event"), ?_, ?_⟩
  · intro kv hkv
    simp only [takPongElem, List.mem_cons, List.not_mem_nil, or_false] at hkv
    rcases hkv with rfl | rfl | rfl | rfl | rfl | rfl | rfl
    · exact ⟨(by decide : nameOk "version"), (by decide : valOk "2.0")⟩
    · exact ⟨(by decide : nameOk "type"), (by decide : valOk "t-x-d-d")⟩
    · exact ⟨(by decide : nameOk "uid"), (by decide : valOk "takPong")⟩
    · exact ⟨(by decide : nameOk "how"), (by decide : valOk "m-g")⟩
    · exact ⟨(by decide : nameOk "time"), cot_time_valOk 0 t⟩
    · exact ⟨(by decide : nameOk "start"), cot_time_valOk 0 t⟩
    · exact ⟨(by decide : nameOk "stale"), cot_time_valOk 3600 t⟩
  · intro l hl
    exact absurd hl (List.not_mem_nil l)

theorem genCot_elemOk (t : Nat) : elemOk (genCotElem t) := by
  refine ⟨(by decide : nameOk "event"), ?_, ?_⟩
  · intro kv hkv
    simp only [genCotElem, List.mem_cons, List.not_mem_nil, or_false] at hkv
    rcases hkv with rfl | rfl | rfl | rfl | rfl | rfl | rfl
    · exact ⟨(by decide : nameOk "version"), (by decide : valOk "2.0")⟩
    · exact ⟨(by decide : nameOk "type"), (by decide : valOk "a-h-A-M-A")⟩
    · exact ⟨(by decide : nameOk "uid"), (by decide : valOk "name_your_marker")⟩
    · exact ⟨(by decide : nameOk "how"), (by decide : valOk "m-g")⟩
    · exact ⟨(by decide : nameOk "time"), cot_time_valOk 0 t⟩
    · exact ⟨(by decide : nameOk "start"), cot_time_valOk 0 t⟩
    · exact ⟨(by decide : nameOk "stale"), cot_time_valOk 60 t⟩
  · intro l hl
    simp only [genCotElem, List.mem_cons, List.not_mem_nil, or_false] at hl
    subst hl
    exact (by decide : leafOk genCotPoint)

/-! ## Attribute values of the generator elements -/

theorem takPong_getAttr_start (t : Nat) :
    getAttr (takPongElem t) "start" = some (cot_time 0 t) := rfl

theorem takPong_getAttr_stale (t : Nat) :
    getAttr (takPongElem t) "stale" = some (cot_time 3600 t) := rfl

theorem genCot_getAttr_start (t : Nat) :
    getAttr (genCotElem t) "start" = some (cot_time 0 t) := rfl

theorem genCot_getAttr_stale (t : Nat) :
    getAttr (genCotElem t) "stale" = some (cot_time 60 t) := rfl

theorem strToNat_cot_time (offset now : Nat) :
    strToNat (cot_time offset now) = some (now + offset) :=
  strToNat_natToStr (now + offset)

theorem takPong_timeAttr_start (t : Nat) : timeAttr (takPongElem t) "start" = some t := by
  rw [timeAttr, takPong_getAttr_start, Option.some_bind, strToNat_cot_time]
  rw [Nat.add_zero]

theorem takPong_timeAttr_stale (t : Nat) :
    timeAttr (takPongElem t) "stale" = some (t + 3600) := by
  rw [timeAttr, takPong_getAttr_stale, Option.some_bind, strToNat_cot_time]

theorem genCot_timeAttr_start (t : Nat) : timeAttr (genCotElem t) "start" = some t := by
  rw [timeAttr, genCot_getAttr_start, Option.some_bind, strToNat_cot_time]
  rw [Nat.add_zero]

theorem genCot_timeAttr_stale (t : Nat) :
    timeAttr (genCotElem t) "stale" = some (t + 60) := by
  rw [timeAttr, genCot_getAttr_stale, Option.some_bind, strToNat_cot_time]

/-! ## Decoding the generators' output -/

theorem fromstring_tak_pong (t : Nat) : fromstring (tak_pong t) = some (takPongElem t) :=
  fromstring_tostring _ (takPong_elemOk t)

theorem fromstring_gen_cot (t : Nat) : fromstring (gen_cot t) = some (genCotElem t) :=
  fromstring_tostring _ (genCot_elemOk t)

theorem decode_tak_pong (t : Nat) : decode (tak_pong t) = .ok (takPongElem t) := by
  rw [decode, fromstring_tak_pong]
  simp only [takPong_timeAttr_start, takPong_timeAttr_stale]
  rw [if_neg (by omega)]

theorem decode_gen_cot (t : Nat) : decode (gen_cot t) = .ok (genCotElem t) := by
  rw [decode, fromstring_gen_cot]
  simp only [genCot_timeAttr_start, genCot_timeAttr_stale]
  rw [if_neg (by omega)]

/-! ## Claim theorems -/

/-- C2: every event constructed by the producers has `stale` = `start` plus
the generator's non-negative offset (3600 s for `tak_pong`, 60 s for
`gen_cot`), and construction never rejects: even an event whose `stale`
precedes its `start` is built and serialized without error (only the codec's
decode validates the ordering). -/
theorem c2_stale_offset (t : Nat) :
    timeAttr (takPongElem t) "start" = some t
    ∧ timeAttr (takPongElem t) "stale" = some (t + 3600)
    ∧ timeAttr (genCotElem t) "start" = some t
    ∧ timeAttr (genCotElem t) "stale" = some (t + 60)
    ∧ fromstring (tostring badStaleElem) = some badStaleElem
    ∧ decode (tostring badStaleElem) = .error .validationError :=
  ⟨takPong_timeAttr_start t, takPong_timeAttr_stale t,
   genCot_timeAttr_start t, genCot_timeAttr_stale t, by decide, rfl⟩

/-- C6: decoding the encoded byte output of either generator yields an event
structurally equal to the one that was encoded (`tak_pong t` and `gen_cot t`
are exactly the serialized forms of `takPongElem t` and `genCotElem t`, and
decoding returns those elements; the model even recovers the timestamp
fields, which the claim allows to be excluded). -/
theorem c6_roundtrip (t : Nat) :
    tak_pong t = tostring (takPongElem t)
    ∧ decode (tak_pong t) = .ok (takPongElem t)
    ∧ gen_cot t = tostring (genCotElem t)
    ∧ decode (gen_cot t) = .ok (genCotElem t) :=
  ⟨rfl, decode_tak_pong t, rfl, decode_gen_cot t⟩

/-- C7: any two calls of the same generator, at arbitrary clock readings,
produce structurally equivalent events: after erasing the `time`, `start`
and `stale` attributes the decoded events are identical; and the encoded
output is a pure function of the single clock reading (the generators have
no other effect in the model). -/
theorem c7_deterministic_up_to_timestamps (t1 t2 : Nat) :
    (fromstring (tak_pong t1)).map stripTimes = (fromstring (tak_pong t2)).map stripTimes
    ∧ (fromstring (gen_cot t1)).map stripTimes = (fromstring (gen_cot t2)).map stripTimes
    ∧ tak_pong t1 = tostring (takPongElem t1)
    ∧ gen_cot t1 = tostring (genCotElem t1) := by
  refine ⟨?_, ?_, rfl, rfl⟩
  · rw [fromstring_tak_pong, fromstring_tak_pong]; rfl
  · rw [fromstring_gen_cot, fromstring_gen_cot]; rfl

/-- C8: every byte string returned by `tak_pong` parses to an `event`
element whose attributes are exactly the seven `version`, `type`, `uid`,
`how`, `time`, `start`, `stale` in that order, with no child elements (in
particular no `point`), and its type is the heartbeat type `t-x-d-d`. -/
theorem c8_takpong_shape (t : Nat) :
    fromstring (tak_pong t) = some (takPongElem t)
    ∧ (takPongElem t).attrib.map Prod.fst
        = ["version", "type", "uid", "how", "time", "start", "stale"]
    ∧ (takPongElem t).children = []
    ∧ getAttr (takPongElem t) "type" = some "t-x-d-d" :=
  ⟨fromstring_tak_pong t, rfl, rfl, rfl⟩

/-- C9: the `uid` attribute is a fixed constant per generator — every
`tak_pong` event decodes with uid `takPong` and every `gen_cot` event with
uid `name_your_marker`, so any two events from the same producer share the
same uid. -/
theorem c9_uid_constant (t1 t2 : Nat) :
    (fromstring (tak_pong t1)).bind (fun e => getAttr e "uid") = some "takPong"
    ∧ (fromstring (tak_pong t2)).bind (fun e => getAttr e "uid") = some "takPong"
    ∧ (fromstring (gen_cot t1)).bind (fun e => getAttr e "uid") = some "name_your_marker"
    ∧ (fromstring (gen_cot t2)).bind (fun e => getAttr e "uid") = some "name_your_marker" := by
  rw [fromstring_tak_pong, fromstring_tak_pong, fromstring_gen_cot, fromstring_gen_cot]
  exact ⟨rfl, rfl, rfl, rfl⟩

/-- C10: the producer-side `handle_data` of both `MySerializer` and
`MySender` enqueues exactly its input: the queue grows by the single item
`d`, byte-for-byte identical to the generator's output. -/
theorem c10_handle_data_identity (st : WState) (d : String) :
    mySerializerHandleData st d = ⟨st.txq ++ [d], st.now⟩
    ∧ mySenderHandleData st d = ⟨st.txq ++ [d], st.now⟩
    ∧ (mySerializerHandleData st d).txq.getLast? = some d
    ∧ (mySenderHandleData st d).txq.getLast? = some d := by
  refine ⟨rfl, rfl, ?_, ?_⟩ <;>
    simp [mySerializerHandleData, mySenderHandleData, put_queue]

/-- C1 counterexample: a malformed byte string that is not valid UTF-8
(the single byte 0xFF) makes `MyReceiver.handle_data` raise a
`UnicodeDecodeError` past its caller — the run loop terminates with the
error instead of logging a parse failure and continuing to the next item
(the following well-formed item `"hi"` is never processed). -/
theorem c1_receiver_raises_on_invalid_utf8 :
    myReceiverHandleData [] [255] = .error "UnicodeDecodeError"
    ∧ myReceiverRun [[255], [104, 105]] [] = .error "UnicodeDecodeError"
    ∧ utf8Decode [255] = none :=
  ⟨rfl, rfl, rfl⟩

/-- C1 (amended): an inbound item whose bytes are valid UTF-8 — malformed
as an event or not — is logged as received data and the loop continues to
the next item without raising; only bytes that are not valid UTF-8 raise a
`UnicodeDecodeError` out of `handle_data`, which terminates the Worker's
loop. -/
theorem c1_receiver_continues_on_utf8_item (log : List String) (d : List Nat)
    (s : List Char) (rest : List (List Nat)) (h : utf8Decode d = some s) :
    myReceiverHandleData log d = .ok (log ++ [receivedMsg s])
    ∧ myReceiverRun (d :: rest) log = myReceiverRun rest (log ++ [receivedMsg s]) := by
  have h1 : myReceiverHandleData log d = .ok (log ++ [receivedMsg s]) := by
    rw [myReceiverHandleData, h]
  refine ⟨h1, ?_⟩
  simp [myReceiverRun, h1]

/-- Witness for C1 (amended): the bytes of the ASCII string `"hi"` — not a
decodable event — are logged and the loop moves on to the next queue item. -/
theorem c1_receiver_continues_witness :
    utf8Decode [104, 105] = some ['h', 'i']
    ∧ (myReceiverHandleData [] [104, 105] = .ok ([] ++ [receivedMsg ['h', 'i']])
      ∧ myReceiverRun ([104, 105] :: [[255]]) []
          = myReceiverRun [[255]] ([] ++ [receivedMsg ['h', 'i']])) :=
  ⟨by decide, c1_receiver_continues_on_utf8_item [] [104, 105] ['h', 'i'] [[255]] (by decide)⟩

/-- C3 counterexample: the iteration interval is not configurable per Worker
instance — two `MySerializer` instances whose configurations differ still
both sleep exactly 20 seconds, and two `MySender` instances likewise both
sleep exactly 5 seconds (the literal in `run` ignores the instance). -/
theorem c3_interval_not_configurable :
    (⟨[], [("COT_URL", "tcp://takserver.example.com:8087")]⟩ : QueueWorkerInst)
      ≠ ⟨[], [("COT_URL", "tcp://other.example.com:9999")]⟩
    ∧ mySerializerObservedInterval
        ⟨[], [("COT_URL", "tcp://takserver.example.com:8087")]⟩ ⟨[], 0⟩ = 20
    ∧ mySerializerObservedInterval
        ⟨[], [("COT_URL", "tcp://other.example.com:9999")]⟩ ⟨[], 0⟩ = 20
    ∧ mySenderObservedInterval
        ⟨[], [("COT_URL", "tcp://takserver.example.com:8087")]⟩ ⟨[], 0⟩ = 5
    ∧ mySenderObservedInterval
        ⟨[], [("COT_URL", "tcp://other.example.com:9999")]⟩ ⟨[], 0⟩ = 5 :=
  ⟨by decide, rfl, rfl, rfl, rfl⟩

/-- C3 (amended): every iteration of a Producer Worker's loop performs, in
this order, (a) construct a CoT event from the pre-sleep clock, (b) enqueue
its encoding via `handle_data`, (c) suspend for the Worker's fixed interval
— but the interval is a hard-coded constant of the Worker class (20 s for
`MySerializer`, 5 s for `MySender`), identical for every instance rather
than configurable per instance. -/
theorem c3_producer_loop_order (w w' : QueueWorkerInst) (st : WState) :
    mySerializerBody w st = ⟨st.txq ++ [tak_pong st.now], st.now + 20⟩
    ∧ mySenderBody w st = ⟨st.txq ++ [gen_cot st.now], st.now + 5⟩
    ∧ mySerializerObservedInterval w st = 20
    ∧ mySenderObservedInterval w st = 5
    ∧ mySerializerObservedInterval w st = mySerializerObservedInterval w' st
    ∧ mySenderObservedInterval w st = mySenderObservedInterval w' st := by
  refine ⟨rfl, rfl, ?_, ?_, rfl, rfl⟩ <;>
    simp [mySerializerObservedInterval, mySenderObservedInterval, mySerializerBody,
      mySenderBody, sleepW, mySerializerHandleData, mySenderHandleData, put_queue]

/-- C5: each iteration of `MyReceiver.run` first block-waits on the inbound
queue — on an empty queue the worker makes no transition — and once an item
is available it dequeues exactly the first item and only then handles it by
logging; meanwhile the wait suspends only that Worker: with an empty RX
queue the receiver's system step is the identity while the sender's step
still enqueues, so the process as a whole keeps making progress. -/
theorem c5_receiver_loop (txq : List String) (log : List String) (now : Nat)
    (d : List Nat) (rest : List (List Nat)) (rxq : List (List Nat)) :
    myReceiverStep (d :: rest) log = some (rest, myReceiverHandleData log d)
    ∧ myReceiverStep [] log = none
    ∧ receiverSysStep ⟨txq, [], log, now⟩ = ⟨txq, [], log, now⟩
    ∧ (senderSysStep ⟨txq, [], log, now⟩).txq = txq ++ [gen_cot now]
    ∧ (senderSysStep ⟨txq, rxq, log, now⟩).rxq = rxq :=
  ⟨rfl, rfl, rfl, rfl, rfl⟩

/-- Unfolding equation for one observed loop iteration. -/
theorem runUntil_succ (body : WState → WState) (f dl : Nat) (st : WState) :
    runUntil body (f + 1) dl st = if st.now < dl then runUntil body f dl (body st) else st :=
  rfl

/-- Over a 12-second window with a 5-second interval, `MySender.run`
enqueues exactly the three events generated at 0, 5 and 10 seconds in. -/
theorem mySender_run_12s (w : QueueWorkerInst) (t0 : Nat) :
    (mySenderRunFor w t0 12).txq = [gen_cot t0, gen_cot (t0 + 5), gen_cot (t0 + 10)] := by
  show (runUntil (mySenderBody w) (11 + 1) (t0 + 12) ⟨[], t0⟩).txq = _
  rw [runUntil_succ, if_pos (show (⟨[], t0⟩ : WState).now < t0 + 12 by show t0 < t0 + 12; omega)]
  rw [show mySenderBody w ⟨[], t0⟩ = ⟨[gen_cot t0], t0 + 5⟩ from rfl]
  show (runUntil (mySenderBody w) (10 + 1) (t0 + 12) ⟨[gen_cot t0], t0 + 5⟩).txq = _
  rw [runUntil_succ, if_pos (show (⟨[gen_cot t0], t0 + 5⟩ : WState).now < t0 + 12 by show t0 + 5 < t0 + 12; omega)]
  rw [show mySenderBody w ⟨[gen_cot t0], t0 + 5⟩
      = ⟨[gen_cot t0, gen_cot (t0 + 5)], t0 + 5 + 5⟩ from rfl]
  show (runUntil (mySenderBody w) (9 + 1) (t0 + 12)
      ⟨[gen_cot t0, gen_cot (t0 + 5)], t0 + 5 + 5⟩).txq = _
  rw [runUntil_succ,
    if_pos (show (⟨[gen_cot t0, gen_cot (t0 + 5)], t0 + 5 + 5⟩ : WState).now < t0 + 12 by
      show t0 + 5 + 5 < t0 + 12; omega)]
  rw [show mySenderBody w ⟨[gen_cot t0, gen_cot (t0 + 5)], t0 + 5 + 5⟩
      = ⟨[gen_cot t0, gen_cot (t0 + 5), gen_cot (t0 + 5 + 5)], t0 + 5 + 5 + 5⟩ from rfl]
  show (runUntil (mySenderBody w) (8 + 1) (t0 + 12)
      ⟨[gen_cot t0, gen_cot (t0 + 5), gen_cot (t0 + 5 + 5)], t0 + 5 + 5 + 5⟩).txq = _
  rw [runUntil_succ,
    if_neg (show
      ¬ (⟨[gen_cot t0, gen_cot (t0 + 5), gen_cot (t0 + 5 + 5)], t0 + 5 + 5 + 5⟩ : WState).now
        < t0 + 12 by show ¬ t0 + 5 + 5 + 5 < t0 + 12; omega)]

/-- C4: running `MySender` (interval 5 s, events from `gen_cot`) for
12 seconds enqueues exactly 2 or 3 events (here: exactly 3), and every
enqueued byte string decodes to an event of type `a-h-A-M-A` whose `point`
child carries lat 40.781789 and lon -73.968698, with `stale` equal to
`start` plus the configured 60-second offset. -/
theorem c4_sender_12s_run (w : QueueWorkerInst) (t0 : Nat) :
    ((mySenderRunFor w t0 12).txq.length = 2 ∨ (mySenderRunFor w t0 12).txq.length = 3)
    ∧ (∀ s ∈ (mySenderRunFor w t0 12).txq,
        ∃ e, decode s = .ok e
          ∧ getAttr e "type" = some "a-h-A-M-A"
          ∧ e.children = [genCotPoint]
          ∧ getLeafAttr genCotPoint "lat" = some "40.781789"
          ∧ getLeafAttr genCotPoint "lon" = some "-73.968698"
          ∧ ∃ a b, timeAttr e "start" = some a ∧ timeAttr e "stale" = some b ∧ b = a + 60) := by
  refine ⟨Or.inr (by rw [mySender_run_12s]; rfl), ?_⟩
  intro s hs
  rw [mySender_run_12s] at hs
  simp only [List.mem_cons, List.not_mem_nil, or_false] at hs
  rcases hs with rfl | rfl | rfl
  · exact ⟨genCotElem t0, decode_gen_cot t0, rfl, rfl, rfl, rfl, t0, t0 + 60,
      genCot_timeAttr_start t0, genCot_timeAttr_stale t0, rfl⟩
  · exact ⟨genCotElem (t0 + 5), decode_gen_cot (t0 + 5), rfl, rfl, rfl, rfl, t0 + 5, t0 + 5 + 60,
      genCot_timeAttr_start (t0 + 5), genCot_timeAttr_stale (t0 + 5), rfl⟩
  · exact ⟨genCotElem (t0 + 10), decode_gen_cot (t0 + 10), rfl, rfl, rfl, rfl, t0 + 10,
      t0 + 10 + 60, genCot_timeAttr_start (t0 + 10), genCot_timeAttr_stale (t0 + 10), rfl⟩

/-- Witness for C4: the first event of a concrete 12-second run (clock
starting at 0, default configuration) is on the queue and satisfies all the
per-event properties. -/
theorem c4_sender_12s_run_witness :
    gen_cot 0 ∈ (mySenderRunFor ⟨[], [("COT_URL", "tcp://takserver.example.com:8087")]⟩ 0 12).txq
    ∧ (∃ e, decode (gen_cot 0) = .ok e
        ∧ getAttr e "type" = some "a-h-A-M-A"
        ∧ e.children = [genCotPoint]
        ∧ getLeafAttr genCotPoint "lat" = some "40.781789"
        ∧ getLeafAttr genCotPoint "lon" = some "-73.968698"
        ∧ ∃ a b, timeAttr e "start" = some a ∧ timeAttr e "stale" = some b ∧ b = a + 60) := by
  have hmem : gen_cot 0
      ∈ (mySenderRunFor ⟨[], [("COT_URL", "tcp://takserver.example.com:8087")]⟩ 0 12).txq := by
    rw [mySender_run_12s]
    exact List.mem_cons_self _ _
  exact ⟨hmem,
    (c4_sender_12s_run ⟨[], [("COT_URL", "tcp://takserver.example.com:8087")]⟩ 0).2
      (gen_cot 0) hmem⟩
